import Mathlib

/-!
# Verification of the django-lightning-service core

A shallow embedding, in Lean 4, of the in-memory temporally-versioned entity
store implemented in `src/entity.rs`, `src/entity_store.rs`, `src/expression.rs`
and `src/errors.rs`, together with proofs of the specified properties.

Modelling conventions:
* Rust `i64` epochs and primary keys become `Int` (none of the verified
  operations perform arithmetic, so no overflow is involved).
* `Uuid` values are modelled as `Nat`; `Uuid::new_v4()` produces a fresh
  random value, which is modelled by passing the fresh value as an explicit
  argument to the identifier constructors.
* `Rc<Entity>` handles are modelled as a pair of an allocation tag (`Nat`)
  and the entity contents; two handles are "the same `Rc`" exactly when the
  pairs are equal.  The store carries the allocation counter.
* `RefCell` interior mutability becomes explicit state passing: mutating
  methods return the new state.
* `HashMap` becomes an association list with replace-on-insert semantics
  (`assocLookup` / `assocInsert`); only lookup, insert and `entry().or_insert`
  are used by the source, so this captures the observable behaviour.
* Rust panics (`unwrap` on an empty history, the `ManyToMany` constructor
  arm, the unreachable arm of `add_entity`) are modelled by `Option`, with
  `none` for the abort.
-/

namespace LightningService

abbrev Epoch := Int
abbrev Model := String
abbrev PK := Int
abbrev Uuid := Nat

/-- `DatabaseValue` from `src/entity.rs` (lines 41-45). -/
inductive DatabaseValue where
  | String : String → DatabaseValue
  | Number : Int → DatabaseValue
  | None : DatabaseValue
deriving DecidableEq

/-- `impl PartialEq for DatabaseValue` from `src/entity.rs` (lines 47-60):
structural equality, `None` only equal to `None`. -/
def DatabaseValue.eq (a b : DatabaseValue) : Bool :=
  match a, b with
  | .None, .None => true
  | .None, _ => false
  | _, .None => false
  | .String a, .String b => a == b
  | .Number a, .Number b => a == b
  | _, _ => false

/-- `AttributeValue` from `src/entity.rs` (lines 33-37): one history entry. -/
structure AttributeValue where
  epoch : Epoch
  value : DatabaseValue
deriving DecidableEq

/-- The reversed iteration of `PhysicalAttribute::get_at_epoch`
(`src/entity.rs` lines 95-99): the *last* entry of the forward list whose
epoch is `≤ epoch`, if any.  `findRev` consults the tail first, which is
exactly "first hit of `value_history.iter().rev()`". -/
def findRev (history : List AttributeValue) (epoch : Epoch) : Option DatabaseValue :=
  match history with
  | [] => none
  | av :: rest =>
    match findRev rest epoch with
    | some v => some v
    | none => if av.epoch ≤ epoch then some av.value else none

/-- `PhysicalAttribute::get_at_epoch` from `src/entity.rs` (lines 93-103).
Walk the history newest-to-oldest for the first entry with epoch `≤ epoch`;
otherwise fall back to the first (earliest) entry.  The Rust code calls
`.first().unwrap()`, which aborts on an empty history; that abort is the
`none` result here. -/
def get_at_epoch (history : List AttributeValue) (epoch : Epoch) : Option DatabaseValue :=
  match findRev history epoch with
  | some v => some v
  | none => history.head?.map (fun av => av.value)

/-- `PhysicalAttribute::insert_at_epoch` from `src/entity.rs` (lines 105-117):
scan forward, insert the new entry just before the first existing entry with a
strictly greater epoch, or push at the end. -/
def insert_at_epoch (history : List AttributeValue) (value : DatabaseValue) (epoch : Epoch) :
    List AttributeValue :=
  match history with
  | [] => [⟨epoch, value⟩]
  | hist :: rest =>
    if hist.epoch > epoch then ⟨epoch, value⟩ :: hist :: rest
    else hist :: insert_at_epoch rest value epoch

/-- `BaseEntityAttribute::set_value` for `PhysicalAttribute`
(`src/entity.rs` lines 130-132) simply delegates to `insert_at_epoch`. -/
def set_value (history : List AttributeValue) (value : DatabaseValue) (epoch : Epoch) :
    List AttributeValue :=
  insert_at_epoch history value epoch

/-- The attribute history obtained by running a whole sequence of `set_value`
calls, in order, starting from the empty history of a fresh
`PhysicalAttribute` (`src/entity.rs` line 88). -/
def buildHistory (ops : List (DatabaseValue × Epoch)) : List AttributeValue :=
  ops.foldl (fun h p => set_value h p.1 p.2) []

/-- The history invariant: epochs are in non-decreasing order. -/
def EpochSorted (h : List AttributeValue) : Prop :=
  List.Pairwise (fun a b => a.epoch ≤ b.epoch) h

instance (h : List AttributeValue) : Decidable (EpochSorted h) :=
  inferInstanceAs (Decidable (List.Pairwise _ h))

/-- `EntityIdentifier` from `src/entity.rs` (lines 137-143). -/
structure EntityIdentifier where
  model : Model
  pk : Option PK
  uuid : Uuid
deriving DecidableEq

/-- `EntityIdentifier::has_applied_pk` from `src/entity.rs` (lines 180-182). -/
def EntityIdentifier.has_applied_pk (i : EntityIdentifier) : Bool :=
  i.pk.isSome

/-- `impl PartialEq for EntityIdentifier` from `src/entity.rs` (lines 145-152):
equal UUIDs short-circuit to `true`; otherwise both sides must carry an
applied PK and agree on model and PK. -/
def EntityIdentifier.eq (a b : EntityIdentifier) : Bool :=
  if a.uuid == b.uuid then true
  else a.has_applied_pk && b.has_applied_pk && a.model == b.model && a.pk == b.pk

/-- `EntityIdentifier::new` from `src/entity.rs` (lines 155-161); the fresh
`Uuid::new_v4()` is passed explicitly. -/
def EntityIdentifier.new (model : Model) (uuid : Uuid) : EntityIdentifier :=
  ⟨model, none, uuid⟩

/-- `EntityIdentifier::new_persisted` from `src/entity.rs` (lines 163-169);
the fresh `Uuid::new_v4()` is passed explicitly. -/
def EntityIdentifier.new_persisted (model : Model) (pk : PK) (uuid : Uuid) : EntityIdentifier :=
  ⟨model, some pk, uuid⟩

/-- `EntityIdentifier::set_applied_pk` from `src/entity.rs` (lines 192-194);
the in-place mutation is modelled by returning the updated identifier. -/
def EntityIdentifier.set_applied_pk (i : EntityIdentifier) (pk : PK) : EntityIdentifier :=
  { i with pk := some pk }

/-- `EntityError` from `src/errors.rs`. -/
inductive EntityError where
  | AttributeNotFound : String → EntityError
  | EntityNotFound : EntityIdentifier → EntityError
  | UnpersistedEntity : EntityIdentifier → EntityError
deriving DecidableEq

/-- `AttributeKind` from `src/entity.rs` (lines 204-208). -/
inductive AttributeKind where
  | Physical
  | ManyToMany
deriving DecidableEq

/-- `AttributeDescriptor` from `src/entity.rs` (lines 210-215). -/
structure AttributeDescriptor where
  kind : AttributeKind
  name : String
  initial : DatabaseValue
deriving DecidableEq

/-- Association-list lookup modelling `HashMap::get`. -/
def assocLookup {α β : Type} [DecidableEq α] (m : List (α × β)) (k : α) : Option β :=
  match m with
  | [] => none
  | (k', v) :: t => if k' = k then some v else assocLookup t k

/-- Association-list insert modelling `HashMap::insert` (replace on duplicate
key, append otherwise). -/
def assocInsert {α β : Type} [DecidableEq α] (m : List (α × β)) (k : α) (v : β) :
    List (α × β) :=
  match m with
  | [] => [(k, v)]
  | (k', v') :: t => if k' = k then (k, v) :: t else (k', v') :: assocInsert t k v

/-- `Entity` from `src/entity.rs` (lines 198-202): identifier plus the
name → attribute-history map.  A `PhysicalAttribute` is represented by its
value history; the two epoch pointers it shares with the store are supplied
at read time. -/
structure Entity where
  identifier : EntityIdentifier
  physical_attributes : List (String × List AttributeValue)
deriving DecidableEq

/-- The construction loop of `Entity::new` (`src/entity.rs` lines 241-250):
each `Physical` descriptor creates a fresh attribute seeded with
`set_value(initial, initial_epoch)`; a `ManyToMany` descriptor aborts
(`none`). -/
def buildPhysicals (initial_epoch : Epoch) :
    List AttributeDescriptor → List (String × List AttributeValue) →
    Option (List (String × List AttributeValue))
  | [], acc => some acc
  | attr :: rest, acc =>
    match attr.kind with
    | .ManyToMany => none
    | .Physical =>
      buildPhysicals initial_epoch rest
        (assocInsert acc attr.name (set_value [] attr.initial initial_epoch))

/-- `Entity::new` from `src/entity.rs` (lines 238-255).  `initial_epoch` is
the value of `initial_ptr.get_epoch()` at construction time. -/
def Entity.new (identifier : EntityIdentifier) (attributes : List AttributeDescriptor)
    (initial_epoch : Epoch) : Option Entity :=
  (buildPhysicals initial_epoch attributes []).map (fun m => ⟨identifier, m⟩)

/-- `Entity::get` from `src/entity.rs` (lines 257-263): the named attribute's
history, or `AttributeNotFound`. -/
def Entity.get (e : Entity) (attr_name : String) :
    Except EntityError (List AttributeValue) :=
  match assocLookup e.physical_attributes attr_name with
  | some attr => .ok attr
  | none => .error (.AttributeNotFound attr_name)

/-- `ExactExpression` from `src/expression.rs` (lines 19-22). -/
structure ExactExpression where
  attr : String
  value : DatabaseValue
deriving DecidableEq

/-- `FilterExpression` from `src/expression.rs` (lines 12-14). -/
inductive FilterExpression where
  | Exact : ExactExpression → FilterExpression
deriving DecidableEq

/-- `ExactExpression::contains` from `src/expression.rs` (lines 43-49). -/
def ExactExpression.contains (self : ExactExpression) (other : FilterExpression) : Bool :=
  match other with
  | .Exact other_eq =>
    self.attr == other_eq.attr && DatabaseValue.eq self.value other_eq.value

/-- Dispatch of `contains` over the (single-variant) expression tree, as the
free function `match_entity` of `src/expression.rs` dispatches `match`. -/
def FilterExpression.contains (self other : FilterExpression) : Bool :=
  match self with
  | .Exact expression => expression.contains other

/-- `ExactExpression::match_entity` from `src/expression.rs` (lines 51-53):
`entity.get(attr)?.get_value() == value`, where `get_value` reads at the
current-epoch cursor (`src/entity.rs` lines 126-128).  The outer `Option`
models the abort of `get_value` on an empty history. -/
def ExactExpression.match_entity (self : ExactExpression) (entity : Entity)
    (current_epoch : Epoch) : Option (Except EntityError Bool) :=
  match entity.get self.attr with
  | .error err => some (.error err)
  | .ok attr =>
    match get_at_epoch attr current_epoch with
    | none => none
    | some v => some (.ok (DatabaseValue.eq v self.value))

/-- The free function `match_entity` from `src/expression.rs` (lines 6-11). -/
def match_entity (filter_expression : FilterExpression) (entity : Entity)
    (current_epoch : Epoch) : Option (Except EntityError Bool) :=
  match filter_expression with
  | .Exact expression => expression.match_entity entity current_epoch

/-- A model of `Rc<Entity>`: an allocation tag plus the entity contents.
Two handles are the same `Rc` exactly when they are equal as pairs. -/
abbrev EntityRef := Nat × Entity

/-- `EntityIdentifierIndex` from `src/entity_store.rs` (lines 16-19). -/
structure EntityIdentifierIndex where
  entities_pk_index : List (Model × List (PK × EntityRef))
  entities_uuid_index : List (Uuid × EntityRef)
deriving DecidableEq

/-- `EntityIdentifierIndex::new` from `src/entity_store.rs` (lines 22-27). -/
def EntityIdentifierIndex.new : EntityIdentifierIndex :=
  ⟨[], []⟩

/-- `EntityIdentifierIndex::get` from `src/entity_store.rs` (lines 31-41):
UUID lookup first, then — only when a PK is applied — the (model, PK)
lookup, else `EntityNotFound(identifier)`. -/
def EntityIdentifierIndex.get (idx : EntityIdentifierIndex)
    (identifier : EntityIdentifier) : Except EntityError EntityRef :=
  match assocLookup idx.entities_uuid_index identifier.uuid with
  | some result => .ok result
  | none =>
    match identifier.pk with
    | some pk =>
      match (assocLookup idx.entities_pk_index identifier.model).bind
          (fun hashmap => assocLookup hashmap pk) with
      | some result => .ok result
      | none => .error (.EntityNotFound identifier)
    | none => .error (.EntityNotFound identifier)

/-- `EntityIdentifierIndex::add` from `src/entity_store.rs` (lines 43-50):
always index by UUID; additionally index by (model, PK) when a PK is applied
(`entry(model).or_insert_with(HashMap::new).insert(pk, entity)`). -/
def EntityIdentifierIndex.add (idx : EntityIdentifierIndex) (entity : EntityRef) :
    EntityIdentifierIndex :=
  let identifier := entity.2.identifier
  let uuid_index := assocInsert idx.entities_uuid_index identifier.uuid entity
  match identifier.pk with
  | some pk =>
    { entities_uuid_index := uuid_index,
      entities_pk_index :=
        assocInsert idx.entities_pk_index identifier.model
          (assocInsert ((assocLookup idx.entities_pk_index identifier.model).getD []) pk
            entity) }
  | none =>
    { entities_uuid_index := uuid_index,
      entities_pk_index := idx.entities_pk_index }

/-- `EntityStorage` from `src/entity_store.rs` (lines 53-55): per-model
insertion-ordered lists of shared handles. -/
structure EntityStorage where
  storage : List (Model × List EntityRef)
deriving DecidableEq

/-- `EntityStorage::add` from `src/entity_store.rs` (lines 58-65): wrap
`entity` in a fresh `Rc` (tag `fresh_id`), append it to the entity's model
list (`entry.or_insert(vec![])`) and return the handle. -/
def EntityStorage.add (st : EntityStorage) (fresh_id : Nat) (entity : Entity) :
    EntityStorage × EntityRef :=
  let model := entity.identifier.model
  let rc : EntityRef := (fresh_id, entity)
  (⟨assocInsert st.storage model (((assocLookup st.storage model).getD []) ++ [rc])⟩, rc)

/-- The filter loop of `EntityStorage::filter` (`src/entity_store.rs`
lines 75-81): evaluate `match_entity` on each handle in order, propagating
the first error (`?`), collecting matching handles. -/
def filterLoop (filter_expression : FilterExpression) (current_epoch : Epoch) :
    List EntityRef → Option (Except EntityError (List EntityRef))
  | [] => some (.ok [])
  | entity :: rest =>
    match match_entity filter_expression entity.2 current_epoch with
    | none => none
    | some (.error e) => some (.error e)
    | some (.ok b) =>
      match filterLoop filter_expression current_epoch rest with
      | none => none
      | some (.error e) => some (.error e)
      | some (.ok result) => some (.ok (if b then entity :: result else result))

/-- `EntityStorage::filter` from `src/entity_store.rs` (lines 73-85): scan
the model's list; a missing list yields `Ok(vec![])`. -/
def EntityStorage.filter (st : EntityStorage) (model : Model)
    (filter_expression : FilterExpression) (current_epoch : Epoch) :
    Option (Except EntityError (List EntityRef)) :=
  match assocLookup st.storage model with
  | some storage => filterLoop filter_expression current_epoch storage
  | none => some (.ok [])

/-- `EntityStore` from `src/entity_store.rs` (lines 8-13).  The two
`Rc<EpochPtr>` cursors are modelled by their integer values; `next_id`
models the `Rc` allocator producing distinguishable handles. -/
structure EntityStore where
  initial_ptr : Epoch
  current_ptr : Epoch
  entities : EntityStorage
  index : EntityIdentifierIndex
  next_id : Nat
deriving DecidableEq

/-- `EntityStore::new` from `src/entity_store.rs` (lines 115-122): both
cursors start at epoch 0 (`EpochPtr::default`). -/
def EntityStore.new : EntityStore :=
  ⟨0, 0, ⟨[]⟩, EntityIdentifierIndex.new, 0⟩

/-- `EntityStore::get` from `src/entity_store.rs` (lines 89-91). -/
def EntityStore.get (s : EntityStore) (identifier : EntityIdentifier) :
    Except EntityError EntityRef :=
  s.index.get identifier

/-- `EntityStore::filter` from `src/entity_store.rs` (lines 93-96). -/
def EntityStore.filter (s : EntityStore) (model : Model)
    (filter_expression : FilterExpression) : Option (Except EntityError (List EntityRef)) :=
  s.entities.filter model filter_expression s.current_ptr

/-- `EntityStore::add_entity` from `src/entity_store.rs` (lines 100-113):
on `EntityNotFound`, install the entity in storage and index and return the
new handle; on a hit, return the existing handle; any other error aborts
(`none`). -/
def EntityStore.add_entity (s : EntityStore) (entity : Entity) :
    Option (EntityStore × EntityRef) :=
  match s.index.get entity.identifier with
  | .error (.EntityNotFound _) =>
    let res := s.entities.add s.next_id entity
    let installed : EntityStore :=
      { s with entities := res.1, index := s.index.add res.2, next_id := s.next_id + 1 }
    some (installed, res.2)
  | .ok entity => some (s, entity)
  | .error _ => none

/-- `EntityStore::instantiate_entity` from `src/entity_store.rs`
(lines 124-127): build the entity bound to the store's cursors, then
`add_entity`. -/
def EntityStore.instantiate_entity (s : EntityStore) (identifier : EntityIdentifier)
    (attributes_descriptors : List AttributeDescriptor) :
    Option (EntityStore × EntityRef) :=
  match Entity.new identifier attributes_descriptors s.initial_ptr with
  | none => none
  | some entity => s.add_entity entity

/-! ### Specification-side predicates used in theorem statements -/

/-- The entity carries the named attribute and that attribute has a non-empty
(seeded) history — which is the state `Entity::new` always establishes. -/
def hasSeededAttr (e : Entity) (attr_name : String) : Bool :=
  match assocLookup e.physical_attributes attr_name with
  | some hist => !hist.isEmpty
  | none => false

/-- The value of the named attribute of `e` read at `epoch`, when the
attribute exists and its history is non-empty. -/
def attrValueAt (e : Entity) (attr_name : String) (epoch : Epoch) : Option DatabaseValue :=
  match e.get attr_name with
  | .ok hist => get_at_epoch hist epoch
  | .error _ => none

/-! ### Concrete instances used by witnesses and the counterexample -/

/-- A persisted identifier (model "User", PK 1, uuid 0). -/
def wIdent : EntityIdentifier := EntityIdentifier.new_persisted "User" 1 0

/-- One physical descriptor: attribute "name" with initial `String "john"`. -/
def wDescs : List AttributeDescriptor := [⟨.Physical, "name", .String "john"⟩]

/-- The entity `Entity::new wIdent wDescs` builds at initial epoch 0. -/
def wEnt : Entity := ⟨wIdent, [("name", [⟨0, .String "john"⟩])]⟩

/-- The handle for `wEnt` allocated by a fresh store. -/
def wHandle : EntityRef := (0, wEnt)

/-- The store obtained from `EntityStore.new` after instantiating `wEnt`. -/
def wStore : EntityStore :=
  ⟨0, 0, ⟨[("User", [wHandle])]⟩, ⟨[("User", [(1, wHandle)])], [(0, wHandle)]⟩, 1⟩

/-- An unpersisted identifier (model "User", no PK, uuid 0): the identifier of
a caller-minted entity `j`. -/
def cexJIdent : EntityIdentifier := EntityIdentifier.new "User" 0

/-- The entity `j` (no attributes), installed first. -/
def cexJEnt : Entity := ⟨cexJIdent, []⟩

/-- The handle of `j` in the store. -/
def cexJHandle : EntityRef := (0, cexJEnt)

/-- A store already holding `j`: reachable as
`(EntityStore.new.instantiate_entity cexJIdent []) = some (cexStore1, cexJHandle)`. -/
def cexStore1 : EntityStore :=
  ⟨0, 0, ⟨[("User", [cexJHandle])]⟩, ⟨[], [(0, cexJHandle)]⟩, 1⟩

/-- A freshly minted persisted identifier (model "User", PK 5, fresh uuid 1). -/
def cexI1 : EntityIdentifier := EntityIdentifier.new_persisted "User" 5 1

/-- A clone of `j`'s identifier (same uuid 0) whose PK is later applied via
`set_applied_pk(5)` — exactly what the persistence layer does after commit. -/
def cexI2 : EntityIdentifier := cexJIdent.set_applied_pk 5

/-- The entity installed for `cexI1`. -/
def cexEnt1 : Entity := ⟨cexI1, []⟩

/-- The handle installed by the first `instantiate_entity cexI1` call. -/
def cexHandle1 : EntityRef := (1, cexEnt1)

/-- The store after instantiating `cexI1` into `cexStore1`. -/
def cexStore2 : EntityStore :=
  ⟨0, 0, ⟨[("User", [cexJHandle, cexHandle1])]⟩,
    ⟨[("User", [(5, cexHandle1)])], [(0, cexJHandle), (1, cexHandle1)]⟩, 2⟩

/-! ### Helper lemmas about attribute histories -/

theorem mem_insert_at_epoch {a : AttributeValue} {h : List AttributeValue}
    {v : DatabaseValue} {E : Epoch} (hmem : a ∈ insert_at_epoch h v E) :
    a = ⟨E, v⟩ ∨ a ∈ h := by
  induction h with
  | nil =>
    rw [insert_at_epoch] at hmem
    exact Or.inl (List.mem_singleton.mp hmem)
  | cons b t ih =>
    rw [insert_at_epoch] at hmem
    by_cases hgt : b.epoch > E
    · rw [if_pos hgt] at hmem
      rcases List.mem_cons.mp hmem with heq | hrest
      · exact Or.inl heq
      · exact Or.inr hrest
    · rw [if_neg hgt] at hmem
      rcases List.mem_cons.mp hmem with heq | hrest
      · exact Or.inr (heq ▸ List.mem_cons_self b t)
      · rcases ih hrest with heq | hmem'
        · exact Or.inl heq
        · exact Or.inr (List.mem_cons_of_mem b hmem')

theorem insert_at_epoch_sorted {h : List AttributeValue} (v : DatabaseValue) (E : Epoch)
    (hs : EpochSorted h) : EpochSorted (insert_at_epoch h v E) := by
  induction h with
  | nil => simp [insert_at_epoch, EpochSorted]
  | cons a t ih =>
    rw [EpochSorted, List.pairwise_cons] at hs
    obtain ⟨ha, ht⟩ := hs
    rw [insert_at_epoch]
    by_cases hgt : a.epoch > E
    · rw [if_pos hgt, EpochSorted, List.pairwise_cons]
      refine ⟨?_, ?_⟩
      · intro b hb
        rcases List.mem_cons.mp hb with rfl | hbt
        · exact le_of_lt hgt
        · exact le_trans (le_of_lt hgt) (ha b hbt)
      · rw [List.pairwise_cons]
        exact ⟨ha, ht⟩
    · rw [if_neg hgt, EpochSorted, List.pairwise_cons]
      refine ⟨?_, ih ht⟩
      intro b hb
      rcases mem_insert_at_epoch hb with rfl | hbt
      · exact not_lt.mp hgt
      · exact ha b hbt

theorem insert_at_epoch_ne_nil (h : List AttributeValue) (v : DatabaseValue) (E : Epoch) :
    insert_at_epoch h v E ≠ [] := by
  cases h with
  | nil => simp [insert_at_epoch]
  | cons a t =>
    rw [insert_at_epoch]
    by_cases hgt : a.epoch > E
    · rw [if_pos hgt]; simp
    · rw [if_neg hgt]; simp

theorem foldl_set_value_sorted (ops : List (DatabaseValue × Epoch))
    (h : List AttributeValue) (hs : EpochSorted h) :
    EpochSorted (ops.foldl (fun h p => set_value h p.1 p.2) h) := by
  induction ops generalizing h with
  | nil => exact hs
  | cons p rest ih =>
    rw [List.foldl_cons]
    exact ih _ (insert_at_epoch_sorted p.1 p.2 hs)

theorem buildHistory_sorted (ops : List (DatabaseValue × Epoch)) :
    EpochSorted (buildHistory ops) :=
  foldl_set_value_sorted ops [] (by simp [EpochSorted])

theorem foldl_set_value_ne_nil (ops : List (DatabaseValue × Epoch))
    (h : List AttributeValue) (hne : h ≠ []) :
    ops.foldl (fun h p => set_value h p.1 p.2) h ≠ [] := by
  induction ops generalizing h with
  | nil => exact hne
  | cons p rest ih =>
    rw [List.foldl_cons]
    exact ih _ (insert_at_epoch_ne_nil h p.1 p.2)

theorem buildHistory_ne_nil (ops : List (DatabaseValue × Epoch)) (hne : ops ≠ []) :
    buildHistory ops ≠ [] := by
  cases ops with
  | nil => exact absurd rfl hne
  | cons p rest =>
    rw [buildHistory, List.foldl_cons]
    exact foldl_set_value_ne_nil rest _ (insert_at_epoch_ne_nil [] p.1 p.2)

theorem findRev_eq_none_iff (h : List AttributeValue) (E : Epoch) :
    findRev h E = none ↔ ∀ av ∈ h, ¬ av.epoch ≤ E := by
  induction h with
  | nil => simp [findRev]
  | cons a t ih =>
    rw [findRev]
    constructor
    · intro hnone
      cases hrec : findRev t E with
      | some w => rw [hrec] at hnone; exact absurd hnone (by simp)
      | none =>
        rw [hrec] at hnone
        intro av hav
        rcases List.mem_cons.mp hav with rfl | hmem
        · intro hle
          rw [if_pos hle] at hnone
          exact absurd hnone (by simp)
        · exact (ih.mp hrec) av hmem
    · intro hall
      have hrec : findRev t E = none :=
        ih.mpr (fun av hav => hall av (List.mem_cons_of_mem a hav))
      rw [hrec, if_neg (hall a (List.mem_cons_self a t))]

theorem findRev_some_max {h : List AttributeValue} {E : Epoch} {v : DatabaseValue}
    (hs : EpochSorted h) (hf : findRev h E = some v) :
    ∃ av, av ∈ h ∧ av.epoch ≤ E ∧ v = av.value ∧
      ∀ av' ∈ h, av'.epoch ≤ E → av'.epoch ≤ av.epoch := by
  induction h with
  | nil => simp [findRev] at hf
  | cons a t ih =>
    rw [EpochSorted, List.pairwise_cons] at hs
    obtain ⟨ha, ht⟩ := hs
    rw [findRev] at hf
    cases hrec : findRev t E with
    | some w =>
      rw [hrec] at hf
      obtain rfl : w = v := by injection hf
      obtain ⟨av, hmem, hle, hval, hmax⟩ := ih ht hrec
      refine ⟨av, List.mem_cons_of_mem a hmem, hle, hval, ?_⟩
      intro av' hav' hle'
      rcases List.mem_cons.mp hav' with rfl | hmem'
      · exact ha av hmem
      · exact hmax av' hmem' hle'
    | none =>
      rw [hrec] at hf
      by_cases hle : a.epoch ≤ E
      · rw [if_pos hle] at hf
        obtain rfl : a.value = v := by injection hf
        refine ⟨a, List.mem_cons_self a t, hle, rfl, ?_⟩
        intro av' hav' hle'
        rcases List.mem_cons.mp hav' with rfl | hmem'
        · exact le_refl _
        · exact absurd hle' ((findRev_eq_none_iff t E).mp hrec av' hmem')
      · rw [if_neg hle] at hf
        exact absurd hf (by simp)

theorem findRev_append (l₁ l₂ : List AttributeValue) (E : Epoch) :
    findRev (l₁ ++ l₂) E =
      match findRev l₂ E with
      | some v => some v
      | none => findRev l₁ E := by
  induction l₁ with
  | nil =>
    rw [List.nil_append]
    cases hrec : findRev l₂ E <;> simp [findRev]
  | cons a t ih =>
    rw [List.cons_append, findRev, ih, findRev]
    cases findRev l₂ E <;> cases findRev t E <;> rfl

theorem insert_at_epoch_decomp (h : List AttributeValue) (v : DatabaseValue) (E : Epoch)
    (hs : EpochSorted h) :
    ∃ h₁ h₂, h = h₁ ++ h₂ ∧ insert_at_epoch h v E = h₁ ++ ⟨E, v⟩ :: h₂ ∧
      (∀ av ∈ h₁, av.epoch ≤ E) ∧ ∀ av ∈ h₂, E < av.epoch := by
  induction h with
  | nil => exact ⟨[], [], rfl, rfl, by simp, by simp⟩
  | cons a t ih =>
    rw [EpochSorted, List.pairwise_cons] at hs
    obtain ⟨ha, ht⟩ := hs
    by_cases hgt : a.epoch > E
    · refine ⟨[], a :: t, rfl, ?_, by simp, ?_⟩
      · rw [insert_at_epoch, if_pos hgt]
        rfl
      · intro av hav
        rcases List.mem_cons.mp hav with rfl | hmem
        · exact hgt
        · exact lt_of_lt_of_le hgt (ha av hmem)
    · obtain ⟨h₁, h₂, heq, hins, h1le, h2gt⟩ := ih ht
      refine ⟨a :: h₁, h₂, by rw [List.cons_append, ← heq], ?_, ?_, h2gt⟩
      · rw [insert_at_epoch, if_neg hgt, hins]
        rfl
      · intro av hav
        rcases List.mem_cons.mp hav with rfl | hmem
        · exact not_lt.mp hgt
        · exact h1le av hmem

theorem get_at_epoch_eq_none_iff (h : List AttributeValue) (E : Epoch) :
    get_at_epoch h E = none ↔ h = [] := by
  constructor
  · intro hnone
    cases h with
    | nil => rfl
    | cons a t =>
      rw [get_at_epoch] at hnone
      cases hrec : findRev (a :: t) E with
      | some w => rw [hrec] at hnone; exact absurd hnone (by simp)
      | none => rw [hrec] at hnone; exact absurd hnone (by simp)
  · rintro rfl
    simp [get_at_epoch, findRev]

/-! ### Helper lemmas about association lists, values and identifiers -/

theorem assocLookup_assocInsert_self {α β : Type} [DecidableEq α]
    (m : List (α × β)) (k : α) (v : β) :
    assocLookup (assocInsert m k v) k = some v := by
  induction m with
  | nil => simp [assocInsert, assocLookup]
  | cons p t ih =>
    obtain ⟨k', v'⟩ := p
    rw [assocInsert]
    by_cases hk : k' = k
    · rw [if_pos hk, assocLookup, if_pos rfl]
    · rw [if_neg hk, assocLookup, if_neg hk, ih]

theorem assocLookup_assocInsert_ne {α β : Type} [DecidableEq α]
    (m : List (α × β)) (k k' : α) (v : β) (hne : k' ≠ k) :
    assocLookup (assocInsert m k v) k' = assocLookup m k' := by
  induction m with
  | nil => simp [assocInsert, assocLookup, Ne.symm hne]
  | cons p t ih =>
    obtain ⟨a, b⟩ := p
    rw [assocInsert]
    by_cases hk : a = k
    · subst hk
      rw [if_pos rfl, assocLookup, assocLookup, if_neg (Ne.symm hne), if_neg (Ne.symm hne)]
    · rw [if_neg hk, assocLookup, assocLookup, ih]

theorem mem_assocInsert {α β : Type} [DecidableEq α] {kv : α × β}
    {m : List (α × β)} {k : α} {v : β} (hmem : kv ∈ assocInsert m k v) :
    kv = (k, v) ∨ kv ∈ m := by
  induction m with
  | nil =>
    rw [assocInsert] at hmem
    exact Or.inl (List.mem_singleton.mp hmem)
  | cons p t ih =>
    obtain ⟨a, b⟩ := p
    rw [assocInsert] at hmem
    by_cases hk : a = k
    · rw [if_pos hk] at hmem
      rcases List.mem_cons.mp hmem with heq | hrest
      · exact Or.inl heq
      · exact Or.inr (List.mem_cons_of_mem _ hrest)
    · rw [if_neg hk] at hmem
      rcases List.mem_cons.mp hmem with heq | hrest
      · exact Or.inr (heq ▸ List.mem_cons_self _ _)
      · rcases ih hrest with heq | hmem'
        · exact Or.inl heq
        · exact Or.inr (List.mem_cons_of_mem _ hmem')

theorem assocLookup_mem {α β : Type} [DecidableEq α]
    {m : List (α × β)} {k : α} {v : β} (hl : assocLookup m k = some v) :
    (k, v) ∈ m := by
  induction m with
  | nil => simp [assocLookup] at hl
  | cons p t ih =>
    obtain ⟨a, b⟩ := p
    rw [assocLookup] at hl
    by_cases hk : a = k
    · rw [if_pos hk] at hl
      obtain rfl : b = v := by injection hl
      exact hk ▸ List.mem_cons_self _ _
    · rw [if_neg hk] at hl
      exact List.mem_cons_of_mem _ (ih hl)

theorem dbeq_iff (a b : DatabaseValue) : DatabaseValue.eq a b = true ↔ a = b := by
  cases a <;> cases b <;> simp [DatabaseValue.eq]

theorem dbeq_eq_decide (a b : DatabaseValue) :
    DatabaseValue.eq a b = decide (a = b) := by
  rw [Bool.eq_iff_iff, dbeq_iff, decide_eq_true_iff]

/-- Characterisation of `EntityIdentifier` equality, shared by the equality
claims and the store claims. -/
theorem identifier_eq_true_iff (a b : EntityIdentifier) :
    EntityIdentifier.eq a b = true ↔
      a.uuid = b.uuid ∨
        (a.pk.isSome = true ∧ b.pk.isSome = true ∧ a.model = b.model ∧ a.pk = b.pk) := by
  rw [EntityIdentifier.eq]
  by_cases hu : a.uuid = b.uuid
  · simp [hu]
  · simp [hu, EntityIdentifier.has_applied_pk, Bool.and_eq_true, and_assoc]

/-! ### Helper lemmas about entity construction and the index -/

theorem buildPhysicals_total (e0 : Epoch) (descs : List AttributeDescriptor)
    (acc : List (String × List AttributeValue))
    (hphys : ∀ d ∈ descs, d.kind = AttributeKind.Physical) :
    ∃ m, buildPhysicals e0 descs acc = some m := by
  induction descs generalizing acc with
  | nil => exact ⟨acc, rfl⟩
  | cons d rest ih =>
    rw [buildPhysicals, hphys d (List.mem_cons_self d rest)]
    exact ih _ (fun d' hd' => hphys d' (List.mem_cons_of_mem d hd'))

theorem buildPhysicals_seeded (e0 : Epoch) (descs : List AttributeDescriptor)
    (acc m : List (String × List AttributeValue))
    (hacc : ∀ kv ∈ acc, kv.2 ≠ [])
    (hbuild : buildPhysicals e0 descs acc = some m) :
    ∀ kv ∈ m, kv.2 ≠ [] := by
  induction descs generalizing acc with
  | nil =>
    rw [buildPhysicals] at hbuild
    obtain rfl : acc = m := by injection hbuild
    exact hacc
  | cons d rest ih =>
    rw [buildPhysicals] at hbuild
    cases hk : d.kind with
    | ManyToMany => rw [hk] at hbuild; exact absurd hbuild (by simp)
    | Physical =>
      rw [hk] at hbuild
      refine ih _ ?_ hbuild
      intro kv hkv
      rcases mem_assocInsert hkv with rfl | hmem
      · exact insert_at_epoch_ne_nil [] d.initial e0
      · exact hacc kv hmem

theorem entity_new_identifier {i : EntityIdentifier} {descs : List AttributeDescriptor}
    {e0 : Epoch} {ent : Entity} (hnew : Entity.new i descs e0 = some ent) :
    ent.identifier = i := by
  rw [Entity.new] at hnew
  cases hb : buildPhysicals e0 descs [] with
  | none => rw [hb] at hnew; exact absurd hnew (by simp)
  | some m =>
    rw [hb] at hnew
    obtain rfl : (⟨i, m⟩ : Entity) = ent := by injection hnew
    rfl

theorem entity_new_total (i : EntityIdentifier) (descs : List AttributeDescriptor)
    (e0 : Epoch) (hphys : ∀ d ∈ descs, d.kind = AttributeKind.Physical) :
    ∃ ent, Entity.new i descs e0 = some ent := by
  obtain ⟨m, hm⟩ := buildPhysicals_total e0 descs [] hphys
  exact ⟨⟨i, m⟩, by rw [Entity.new, hm]; rfl⟩

/-- `EntityIdentifierIndex::get` returns either a handle or exactly
`EntityNotFound` on the queried identifier. -/
theorem index_get_cases (idx : EntityIdentifierIndex) (i : EntityIdentifier) :
    (∃ r, idx.get i = .ok r) ∨ idx.get i = .error (.EntityNotFound i) := by
  rw [EntityIdentifierIndex.get]
  split
  · exact Or.inl ⟨_, rfl⟩
  · split
    · split
      · exact Or.inl ⟨_, rfl⟩
      · exact Or.inr rfl
    · exact Or.inr rfl

theorem index_get_ok_of_uuid {idx : EntityIdentifierIndex} {i : EntityIdentifier}
    {r : EntityRef} (h : assocLookup idx.entities_uuid_index i.uuid = some r) :
    idx.get i = .ok r := by
  simp only [EntityIdentifierIndex.get, h]

theorem index_get_ok_of_pk {idx : EntityIdentifierIndex} {i : EntityIdentifier}
    {p : PK} {r : EntityRef}
    (hu : assocLookup idx.entities_uuid_index i.uuid = none)
    (hp : i.pk = some p)
    (hl : (assocLookup idx.entities_pk_index i.model).bind
      (fun hashmap => assocLookup hashmap p) = some r) :
    idx.get i = .ok r := by
  simp only [EntityIdentifierIndex.get, hu, hp, hl]

theorem index_get_error_iff (idx : EntityIdentifierIndex) (i : EntityIdentifier) :
    idx.get i = .error (.EntityNotFound i) ↔
      assocLookup idx.entities_uuid_index i.uuid = none ∧
      ∀ p, i.pk = some p →
        (assocLookup idx.entities_pk_index i.model).bind
          (fun hashmap => assocLookup hashmap p) = none := by
  constructor
  · intro herr
    cases hr : assocLookup idx.entities_uuid_index i.uuid with
    | some r =>
      rw [index_get_ok_of_uuid hr] at herr
      exact absurd herr (by simp)
    | none =>
      refine ⟨rfl, fun p hp => ?_⟩
      cases hb : (assocLookup idx.entities_pk_index i.model).bind
          (fun hashmap => assocLookup hashmap p) with
      | some r2 =>
        rw [index_get_ok_of_pk hr hp hb] at herr
        exact absurd herr (by simp)
      | none => rfl
  · rintro ⟨hu, hall⟩
    simp only [EntityIdentifierIndex.get, hu]
    cases hp : i.pk with
    | none => rfl
    | some p => simp only [hall p hp]

/-! ### The claims -/

/-- **C5.** For every index state and identifier `i`, `get(i)` returns the
handle stored under `i`'s UUID when one exists; otherwise, if `i` has an
applied PK and a handle is stored under (model, PK), it returns that handle;
otherwise it fails with `EntityNotFound(i)` — and it fails with
`EntityNotFound` exactly when neither lookup succeeds. -/
theorem index_get_lookup_policy (idx : EntityIdentifierIndex) (i : EntityIdentifier) :
    (∀ r, assocLookup idx.entities_uuid_index i.uuid = some r → idx.get i = .ok r) ∧
    (∀ p r, assocLookup idx.entities_uuid_index i.uuid = none → i.pk = some p →
      (assocLookup idx.entities_pk_index i.model).bind
        (fun hashmap => assocLookup hashmap p) = some r →
      idx.get i = .ok r) ∧
    (idx.get i = .error (.EntityNotFound i) ↔
      assocLookup idx.entities_uuid_index i.uuid = none ∧
      ∀ p, i.pk = some p →
        (assocLookup idx.entities_pk_index i.model).bind
          (fun hashmap => assocLookup hashmap p) = none) :=
  ⟨fun _ h => index_get_ok_of_uuid h,
   fun _ _ hu hp hl => index_get_ok_of_pk hu hp hl,
   index_get_error_iff idx i⟩

/-- Witness for C5: on a concrete one-entry index, a UUID hit resolves, a
(model, PK) hit resolves for a distinct-UUID identifier, and an unknown
identifier fails with `EntityNotFound`. -/
theorem index_get_lookup_policy_witness :
    (wStore.index.get wIdent = .ok wHandle) ∧
    (wStore.index.get (EntityIdentifier.new_persisted "User" 1 7) = .ok wHandle) ∧
    wStore.index.get (EntityIdentifier.new "User" 9) =
      .error (.EntityNotFound (EntityIdentifier.new "User" 9)) := by
  refine ⟨?_, ?_, ?_⟩
  · exact (index_get_lookup_policy wStore.index wIdent).1 wHandle rfl
  · exact (index_get_lookup_policy wStore.index
      (EntityIdentifier.new_persisted "User" 1 7)).2.1 1 wHandle rfl rfl rfl
  · exact (index_get_lookup_policy wStore.index (EntityIdentifier.new "User" 9)).2.2.mpr
      ⟨rfl, fun p hp => by exact absurd hp (by simp [EntityIdentifier.new])⟩

theorem get_at_epoch_isSome_of_ne_nil {hist : List AttributeValue} (hne : hist ≠ [])
    (E : Epoch) : ∃ val, get_at_epoch hist E = some val := by
  cases hval : get_at_epoch hist E with
  | some val => exact ⟨val, rfl⟩
  | none => exact absurd ((get_at_epoch_eq_none_iff hist E).mp hval) hne

theorem filterLoop_exact (attr_name : String) (v : DatabaseValue) (cur : Epoch)
    (refs : List EntityRef)
    (hattr : ∀ r ∈ refs, hasSeededAttr r.2 attr_name = true) :
    filterLoop (.Exact ⟨attr_name, v⟩) cur refs =
      some (.ok (refs.filter
        (fun r => decide (attrValueAt r.2 attr_name cur = some v)))) := by
  induction refs with
  | nil => rfl
  | cons r rest ih =>
    have hr := hattr r (List.mem_cons_self r rest)
    rw [hasSeededAttr] at hr
    cases hl : assocLookup r.2.physical_attributes attr_name with
    | none => rw [hl] at hr; exact absurd hr (by simp)
    | some hist =>
      rw [hl] at hr
      have hne : hist ≠ [] := by
        simpa using hr
      obtain ⟨val, hval⟩ := get_at_epoch_isSome_of_ne_nil hne cur
      have hget : r.2.get attr_name = .ok hist := by
        rw [Entity.get, hl]
      have hmatch : match_entity (.Exact ⟨attr_name, v⟩) r.2 cur =
          some (.ok (DatabaseValue.eq val v)) := by
        simp only [match_entity, ExactExpression.match_entity, hget, hval]
      have hav : attrValueAt r.2 attr_name cur = some val := by
        simp only [attrValueAt, hget, hval]
      have hdec : decide (attrValueAt r.2 attr_name cur = some v) =
          DatabaseValue.eq val v := by
        rw [hav, dbeq_eq_decide]
        exact decide_eq_decide.mpr (by simp)
      rw [filterLoop, hmatch,
        ih (fun r' hr' => hattr r' (List.mem_cons_of_mem r hr')),
        List.filter_cons, hdec]

/-- **C2.** For every store and model such that every entity stored under the
model carries the (seeded) attribute `attr_name`, `filter(model,
Exact(attr_name, v))` returns exactly the handles of the stored entities
whose attribute `attr_name`, read at the current-epoch cursor, equals `v`,
in insertion order; when the store has no entity list for the model the
result is the empty list and no error. -/
theorem filter_exact_semantics (s : EntityStore) (model : Model) (attr_name : String)
    (v : DatabaseValue)
    (hattr : ∀ r ∈ (assocLookup s.entities.storage model).getD [],
      hasSeededAttr r.2 attr_name = true) :
    s.filter model (.Exact ⟨attr_name, v⟩) =
      some (.ok (((assocLookup s.entities.storage model).getD []).filter
        (fun r => decide (attrValueAt r.2 attr_name s.current_ptr = some v)))) := by
  rw [EntityStore.filter, EntityStorage.filter]
  cases hl : assocLookup s.entities.storage model with
  | none => rfl
  | some refs =>
    rw [hl] at hattr
    exact filterLoop_exact attr_name v s.current_ptr refs hattr

/-- Witness for C2: a concrete one-entity store filtered on the seeded
"name" attribute returns exactly that entity's handle. -/
theorem filter_exact_semantics_witness :
    wStore.filter "User" (.Exact ⟨"name", .String "john"⟩) = some (.ok [wHandle]) := by
  rw [filter_exact_semantics wStore "User" "name" (.String "john") (by decide)]
  rfl

theorem index_add_fields (idx : EntityIdentifierIndex) (r : EntityRef) :
    ((idx.add r).entities_uuid_index =
      assocInsert idx.entities_uuid_index r.2.identifier.uuid r) ∧
    (∀ p, r.2.identifier.pk = some p →
      (idx.add r).entities_pk_index =
        assocInsert idx.entities_pk_index r.2.identifier.model
          (assocInsert ((assocLookup idx.entities_pk_index r.2.identifier.model).getD [])
            p r)) ∧
    (r.2.identifier.pk = none →
      (idx.add r).entities_pk_index = idx.entities_pk_index) := by
  refine ⟨?_, fun p hp => ?_, fun hp => ?_⟩
  · simp only [EntityIdentifierIndex.add]
    cases r.2.identifier.pk <;> rfl
  · simp only [EntityIdentifierIndex.add, hp]
  · simp only [EntityIdentifierIndex.add, hp]

theorem add_entity_hit {s : EntityStore} {ent : Entity} {r : EntityRef}
    (h : s.index.get ent.identifier = .ok r) :
    s.add_entity ent = some (s, r) := by
  simp only [EntityStore.add_entity, h]

theorem instantiate_hit {s : EntityStore} {i : EntityIdentifier}
    (d : List AttributeDescriptor) {r : EntityRef}
    (hphys : ∀ x ∈ d, x.kind = AttributeKind.Physical)
    (h : s.index.get i = .ok r) :
    s.instantiate_entity i d = some (s, r) := by
  obtain ⟨ent, hnew⟩ := entity_new_total i d s.initial_ptr hphys
  rw [EntityStore.instantiate_entity, hnew]
  exact add_entity_hit (by rw [entity_new_identifier hnew]; exact h)

/-- **C3 (amended).** If a first `instantiate_entity` call with a fresh
identifier `i1` installs an entity (returning store `s'` and handle `r`),
then a second call with an equal identifier `i2` — provided `i2`'s UUID is
`i1`'s or is not already in the store's UUID index — and any non-aborting
(all-`Physical`) descriptors returns the very same handle `r`, ignores its
descriptors, and leaves the store (storage and index) unchanged. -/
theorem instantiate_dedup (s : EntityStore) (i1 i2 : EntityIdentifier)
    (d1 d2 : List AttributeDescriptor) (s' : EntityStore) (r : EntityRef)
    (hfresh : s.index.get i1 = .error (.EntityNotFound i1))
    (hfirst : s.instantiate_entity i1 d1 = some (s', r))
    (heq : EntityIdentifier.eq i1 i2 = true)
    (hphys : ∀ d ∈ d2, d.kind = AttributeKind.Physical)
    (huuid : i2.uuid = i1.uuid ∨
      assocLookup s.index.entities_uuid_index i2.uuid = none) :
    s'.instantiate_entity i2 d2 = some (s', r) := by
  rw [EntityStore.instantiate_entity] at hfirst
  cases hnew1 : Entity.new i1 d1 s.initial_ptr with
  | none => rw [hnew1] at hfirst; exact absurd hfirst (by simp)
  | some ent1 =>
    rw [hnew1] at hfirst
    have hid1 : ent1.identifier = i1 := entity_new_identifier hnew1
    simp only [EntityStore.add_entity, hid1, hfresh, EntityStorage.add,
      Option.some.injEq, Prod.mk.injEq] at hfirst
    obtain ⟨rfl, rfl⟩ := hfirst
    refine instantiate_hit d2 hphys ?_
    show (s.index.add (s.next_id, ent1)).get i2 = .ok (s.next_id, ent1)
    have hradd : ((s.next_id, ent1) : EntityRef).2.identifier = i1 := hid1
    have huuidx : (s.index.add (s.next_id, ent1)).entities_uuid_index =
        assocInsert s.index.entities_uuid_index i1.uuid (s.next_id, ent1) := by
      rw [(index_add_fields s.index (s.next_id, ent1)).1, hradd]
    by_cases hu : i2.uuid = i1.uuid
    · refine index_get_ok_of_uuid ?_
      rw [huuidx, hu, assocLookup_assocInsert_self]
    · have hlook : assocLookup s.index.entities_uuid_index i2.uuid = none := by
        rcases huuid with h' | h'
        · exact absurd h' hu
        · exact h'
      rcases (identifier_eq_true_iff i1 i2).mp heq with h' | ⟨hps1, _, hmodel, hpkeq⟩
      · exact absurd h'.symm hu
      obtain ⟨p, hp1⟩ : ∃ p, i1.pk = some p := Option.isSome_iff_exists.mp hps1
      have hp2 : i2.pk = some p := by rw [← hpkeq, hp1]
      have hpkidx : (s.index.add (s.next_id, ent1)).entities_pk_index =
          assocInsert s.index.entities_pk_index i1.model
            (assocInsert ((assocLookup s.index.entities_pk_index i1.model).getD []) p
              (s.next_id, ent1)) := by
        have hf := (index_add_fields s.index (s.next_id, ent1)).2.1 p
          (by rw [hradd]; exact hp1)
        rw [hf, hradd]
      refine index_get_ok_of_pk ?_ hp2 ?_
      · rw [huuidx, assocLookup_assocInsert_ne _ _ _ _ hu, hlook]
      · rw [hpkidx, ← hmodel, assocLookup_assocInsert_self, Option.some_bind,
          assocLookup_assocInsert_self]

/-- Witness for C3 (amended): instantiating twice with the very same
identifier returns the installed handle both times and leaves the store
unchanged; the second call's (different) descriptor list is ignored. -/
theorem instantiate_dedup_witness :
    EntityStore.new.instantiate_entity wIdent wDescs = some (wStore, wHandle) ∧
    wStore.instantiate_entity wIdent [] = some (wStore, wHandle) :=
  ⟨rfl, instantiate_dedup EntityStore.new wIdent wIdent wDescs [] wStore wHandle rfl rfl
    (by decide) (by simp) (Or.inl rfl)⟩

/-- Counterexample to C3 as stated: in a store already holding a
caller-minted entity `j` (uuid 0, no PK), take `i1 = new_persisted("User", 5)`
(fresh uuid 1) and `i2 = ` a clone of `j`'s identifier with
`set_applied_pk(5)` (uuid 0).  Then `i1 = i2` (both PK 5, model "User"),
the first instantiate with `i1` is fresh and installs handle `cexHandle1` —
yet the second call with `i2` returns `j`'s handle, not the handle the
first call installed. -/
theorem instantiate_dedup_counterexample :
    EntityStore.new.instantiate_entity cexJIdent [] = some (cexStore1, cexJHandle) ∧
    cexStore1.index.get cexI1 = .error (.EntityNotFound cexI1) ∧
    cexStore1.instantiate_entity cexI1 [] = some (cexStore2, cexHandle1) ∧
    EntityIdentifier.eq cexI1 cexI2 = true ∧
    cexStore2.instantiate_entity cexI2 [] = some (cexStore2, cexJHandle) ∧
    cexJHandle ≠ cexHandle1 :=
  ⟨rfl, rfl, rfl, by decide, rfl, by decide⟩

/-- **C1.** For every temporal attribute with a non-empty history produced by
any sequence of `set_value` calls, and for every query epoch `E`, `get_at(E)`
returns the value of a history entry whose epoch is the largest epoch `≤ E`;
if `E` is strictly smaller than every recorded epoch, `get_at(E)` returns the
value of the earliest (first, minimal-epoch) entry — the clamping behaviour. -/
theorem get_at_largest_le_or_clamp (ops : List (DatabaseValue × Epoch))
    (hne : ops ≠ []) (E : Epoch) :
    (∃ av, av ∈ buildHistory ops ∧ av.epoch ≤ E ∧
      (∀ av' ∈ buildHistory ops, av'.epoch ≤ E → av'.epoch ≤ av.epoch) ∧
      get_at_epoch (buildHistory ops) E = some av.value) ∨
    ((∀ av ∈ buildHistory ops, E < av.epoch) ∧
      ∃ av0, (buildHistory ops).head? = some av0 ∧
        (∀ av' ∈ buildHistory ops, av0.epoch ≤ av'.epoch) ∧
        get_at_epoch (buildHistory ops) E = some av0.value) := by
  have hs := buildHistory_sorted ops
  have hnil := buildHistory_ne_nil ops hne
  cases hrec : findRev (buildHistory ops) E with
  | some v =>
    obtain ⟨av, hmem, hle, hval, hmax⟩ := findRev_some_max hs hrec
    left
    refine ⟨av, hmem, hle, hmax, ?_⟩
    rw [get_at_epoch, hrec, hval]
  | none =>
    right
    have hall := (findRev_eq_none_iff _ E).mp hrec
    refine ⟨fun av hav => lt_of_not_le (hall av hav), ?_⟩
    obtain ⟨a, t, hh⟩ : ∃ a t, buildHistory ops = a :: t := by
      cases hht : buildHistory ops with
      | nil => exact absurd hht hnil
      | cons a t => exact ⟨a, t, rfl⟩
    refine ⟨a, by rw [hh]; rfl, ?_, ?_⟩
    · intro av' hav'
      rw [hh] at hs hav'
      rcases List.mem_cons.mp hav' with rfl | hmem
      · exact le_refl _
      · exact (List.pairwise_cons.mp hs).1 av' hmem
    · rw [get_at_epoch, hrec, hh]
      rfl

/-- Witness for C1: a one-entry history built by one `set_value` call, read
back at its own epoch. -/
theorem get_at_largest_le_or_clamp_witness :
    get_at_epoch (buildHistory [((DatabaseValue.Number 7), (0 : Epoch))]) 0 =
      some (DatabaseValue.Number 7) := by
  have hb : buildHistory [((DatabaseValue.Number 7), (0 : Epoch))] =
      [⟨0, DatabaseValue.Number 7⟩] := by decide
  rcases get_at_largest_le_or_clamp [((DatabaseValue.Number 7), (0 : Epoch))]
      (by decide) 0 with ⟨av, hmem, _, _, hget⟩ | ⟨hall, _⟩
  · have hav : av = ⟨0, DatabaseValue.Number 7⟩ := by
      rw [hb] at hmem
      simpa using hmem
    rw [hget, hav]
  · exfalso
    have := hall ⟨0, DatabaseValue.Number 7⟩ (by rw [hb]; exact List.mem_cons_self _ _)
    exact absurd this (by decide)

/-- **C6.** Immediately after `set_value(v, E)` on a (sorted) history, the
read `get_at(E)` returns `v`, even when entries at epoch `E` already existed:
the new entry lands after every existing entry with epoch `≤ E` (in
particular after all entries with epoch exactly `E`) and before every entry
with a strictly greater epoch — last write wins at a tie. -/
theorem set_value_last_write_wins (h : List AttributeValue) (v : DatabaseValue)
    (E : Epoch) (hs : EpochSorted h) :
    get_at_epoch (set_value h v E) E = some v ∧
    ∃ h₁ h₂, h = h₁ ++ h₂ ∧ set_value h v E = h₁ ++ ⟨E, v⟩ :: h₂ ∧
      (∀ av ∈ h₁, av.epoch ≤ E) ∧ ∀ av ∈ h₂, E < av.epoch := by
  obtain ⟨h₁, h₂, heq, hins, h1le, h2gt⟩ := insert_at_epoch_decomp h v E hs
  have hfr2 : findRev h₂ E = none :=
    (findRev_eq_none_iff h₂ E).mpr (fun av hav => not_le_of_lt (h2gt av hav))
  refine ⟨?_, h₁, h₂, heq, hins, h1le, h2gt⟩
  rw [show set_value h v E = h₁ ++ ⟨E, v⟩ :: h₂ from hins, get_at_epoch, findRev_append]
  have hmid : findRev (⟨E, v⟩ :: h₂) E = some v := by
    rw [findRev, hfr2, if_pos (le_refl E)]
  rw [hmid]

/-- Witness for C6: inserting at an epoch already present overrides the old
value at that epoch. -/
theorem set_value_last_write_wins_witness :
    get_at_epoch (set_value [⟨0, DatabaseValue.Number 1⟩] (DatabaseValue.Number 2) 0) 0 =
      some (DatabaseValue.Number 2) :=
  (set_value_last_write_wins [⟨0, DatabaseValue.Number 1⟩] (DatabaseValue.Number 2) 0
    (by decide)).1

/-- **C7.** Sortedness is an invariant: a single `set_value` call preserves
non-decreasing epoch order, and hence every history reachable by a sequence
of `set_value` calls from the empty history is sorted. -/
theorem set_value_preserves_sorted :
    (∀ (h : List AttributeValue) (v : DatabaseValue) (E : Epoch),
      EpochSorted h → EpochSorted (set_value h v E)) ∧
    ∀ ops : List (DatabaseValue × Epoch), EpochSorted (buildHistory ops) :=
  ⟨fun _ v E hs => insert_at_epoch_sorted v E hs, buildHistory_sorted⟩

/-- Witness for C7: inserting into a concrete two-entry sorted history keeps
it sorted. -/
theorem set_value_preserves_sorted_witness :
    EpochSorted (set_value [⟨0, DatabaseValue.Number 1⟩, ⟨2, DatabaseValue.Number 2⟩]
      (DatabaseValue.Number 3) 1) :=
  set_value_preserves_sorted.1 _ (DatabaseValue.Number 3) 1 (by decide)

/-- **C8.** `get_at` fails only on an empty history: it returns `none`
exactly when the history is empty, so any attribute with at least one
`set_value` always reads successfully; and every attribute of an entity
built by `Entity::new` is seeded (non-empty history), so its reads never
fail at any epoch. -/
theorem get_at_fails_iff_empty :
    (∀ (h : List AttributeValue) (E : Epoch), get_at_epoch h E = none ↔ h = []) ∧
    ∀ (i : EntityIdentifier) (descs : List AttributeDescriptor) (e0 : Epoch)
      (ent : Entity), Entity.new i descs e0 = some ent →
      ∀ (attr_name : String) (hist : List AttributeValue),
        ent.get attr_name = .ok hist →
        hist ≠ [] ∧ ∀ E : Epoch, (get_at_epoch hist E).isSome = true := by
  refine ⟨get_at_epoch_eq_none_iff, ?_⟩
  intro i descs e0 ent hnew attr_name hist hget
  rw [Entity.new] at hnew
  cases hb : buildPhysicals e0 descs [] with
  | none => rw [hb] at hnew; exact absurd hnew (by simp)
  | some m =>
    rw [hb] at hnew
    obtain rfl : (⟨i, m⟩ : Entity) = ent := by injection hnew
    rw [Entity.get] at hget
    cases hl : assocLookup m attr_name with
    | none =>
      rw [hl] at hget
      exact absurd hget (by simp)
    | some hist' =>
      rw [hl] at hget
      have hv : hist' = hist := by injection hget
      rw [hv] at hl
      have hne : hist ≠ [] :=
        buildPhysicals_seeded e0 descs [] m (by simp) hb (attr_name, hist)
          (assocLookup_mem hl)
      refine ⟨hne, fun E => ?_⟩
      rw [← Option.ne_none_iff_isSome]
      intro hnone
      exact hne ((get_at_epoch_eq_none_iff hist E).mp hnone)

/-- Witness for C8: the seeded attribute of a concretely constructed entity
reads successfully. -/
theorem get_at_fails_iff_empty_witness :
    ([⟨0, DatabaseValue.String "john"⟩] : List AttributeValue) ≠ [] ∧
    (get_at_epoch [⟨0, DatabaseValue.String "john"⟩] 5).isSome = true := by
  have h := get_at_fails_iff_empty.2 wIdent wDescs 0 wEnt rfl "name"
    [⟨0, DatabaseValue.String "john"⟩] rfl
  exact ⟨h.1, h.2 5⟩

/-- **C4.** Identifier equality: equal UUIDs imply equality; for distinct
UUIDs, equality holds iff both identifiers have an applied PK, their models
are equal and their PKs are equal — and in all other cases they are
unequal. -/
theorem identifier_eq_cases (a b : EntityIdentifier) :
    (a.uuid = b.uuid → EntityIdentifier.eq a b = true) ∧
    (a.uuid ≠ b.uuid →
      (EntityIdentifier.eq a b = true ↔
        a.has_applied_pk = true ∧ b.has_applied_pk = true ∧
          a.model = b.model ∧ a.pk = b.pk)) := by
  refine ⟨fun h => ?_, fun h => ?_⟩
  · rw [identifier_eq_true_iff]
    exact Or.inl h
  · rw [identifier_eq_true_iff, EntityIdentifier.has_applied_pk,
      EntityIdentifier.has_applied_pk]
    constructor
    · intro hor
      rcases hor with hu | hconj
      · exact absurd hu h
      · exact hconj
    · exact Or.inr

/-- Witness for C4: two persisted identifiers with distinct UUIDs but the
same (model, PK) are equal. -/
theorem identifier_eq_cases_witness :
    EntityIdentifier.eq (EntityIdentifier.new_persisted "User" 1 0)
      (EntityIdentifier.new_persisted "User" 1 1) = true :=
  ((identifier_eq_cases (EntityIdentifier.new_persisted "User" 1 0)
    (EntityIdentifier.new_persisted "User" 1 1)).2 (by decide)).mpr
    (by refine ⟨rfl, rfl, rfl, rfl⟩)

/-- **C9.** `contains` is reflexive — every filter expression contains
itself — and, for `Exact` expressions, `contains` is exactly the equality
test on (attribute, value), hence symmetric. -/
theorem contains_refl_and_exact_eq (x : FilterExpression) (a b : String)
    (v w : DatabaseValue) :
    FilterExpression.contains x x = true ∧
    (ExactExpression.contains ⟨a, v⟩ (.Exact ⟨b, w⟩) = true ↔ a = b ∧ v = w) ∧
    ExactExpression.contains ⟨a, v⟩ (.Exact ⟨b, w⟩) =
      ExactExpression.contains ⟨b, w⟩ (.Exact ⟨a, v⟩) := by
  have hchar : ∀ (a b : String) (v w : DatabaseValue),
      ExactExpression.contains ⟨a, v⟩ (.Exact ⟨b, w⟩) = true ↔ a = b ∧ v = w := by
    intro a b v w
    rw [ExactExpression.contains, Bool.and_eq_true, beq_iff_eq, dbeq_iff]
  refine ⟨?_, hchar a b v w, ?_⟩
  · cases x with
    | Exact e =>
      rw [FilterExpression.contains]
      exact (hchar e.attr e.attr e.value e.value).mpr ⟨rfl, rfl⟩
  · rw [Bool.eq_iff_iff, hchar, hchar]
    constructor
    · intro hc
      exact ⟨hc.1.symm, hc.2.symm⟩
    · intro hc
      exact ⟨hc.1.symm, hc.2.symm⟩

/-- **C10.** Identifier equality is not transitive: a persisted identifier
`a`, a clone `b` of `a` with a re-applied PK (same UUID), and a fresh
persisted identifier `c` with `b`'s (model, PK) satisfy `a = b` (by UUID)
and `b = c` (by model and PK) but `a ≠ c` (UUIDs and PKs both differ). -/
theorem identifier_eq_not_transitive (m : Model) (u1 u2 : Uuid) (hu : u1 ≠ u2) :
    EntityIdentifier.eq (EntityIdentifier.new_persisted m 1 u1)
      ((EntityIdentifier.new_persisted m 1 u1).set_applied_pk 2) = true ∧
    EntityIdentifier.eq ((EntityIdentifier.new_persisted m 1 u1).set_applied_pk 2)
      (EntityIdentifier.new_persisted m 2 u2) = true ∧
    EntityIdentifier.eq (EntityIdentifier.new_persisted m 1 u1)
      (EntityIdentifier.new_persisted m 2 u2) = false := by
  refine ⟨?_, ?_, ?_⟩
  · rw [identifier_eq_true_iff]
    exact Or.inl rfl
  · rw [identifier_eq_true_iff]
    exact Or.inr ⟨rfl, rfl, rfl, rfl⟩
  · rw [Bool.eq_false_iff]
    intro hcontra
    rcases (identifier_eq_true_iff _ _).mp hcontra with huu | ⟨_, _, _, hpk⟩
    · exact hu huu
    · exact absurd hpk (by simp [EntityIdentifier.new_persisted])

/-- Witness for C10: the non-transitive triple at model "User" and distinct
concrete UUIDs 0 and 1. -/
theorem identifier_eq_not_transitive_witness :
    EntityIdentifier.eq (EntityIdentifier.new_persisted "User" 1 0)
      ((EntityIdentifier.new_persisted "User" 1 0).set_applied_pk 2) = true ∧
    EntityIdentifier.eq ((EntityIdentifier.new_persisted "User" 1 0).set_applied_pk 2)
      (EntityIdentifier.new_persisted "User" 2 1) = true ∧
    EntityIdentifier.eq (EntityIdentifier.new_persisted "User" 1 0)
      (EntityIdentifier.new_persisted "User" 2 1) = false :=
  identifier_eq_not_transitive "User" 0 1 (by decide)

end LightningService
